import Mathlib

/-!
Verification of the gesture-event model and renderer-settings fragments of
the `iced` repository.

Embedded source files:
* `src/core/src/gesture.rs` — the `Event` and `Phase` types (data only).
* `src/wgpu/src/settings.rs` — the `Settings` struct, its `Default` and
  `From<graphics::Settings>` impls, and the two environment lookups
  `format_from_env` / `present_mode_from_env`.

External value types (`crate::Point`, `wgpu` enums, `Font`, `Pixels`,
`Antialiasing`) are modelled as plain Lean structures and inductives carrying
the constructors this code uses.  Rust `f32` scalars are modelled as Lean
`Float`; no claim depends on floating-point arithmetic, only on the
constructor structure around the scalars.
-/

namespace Gesture

/-- The phase of an ongoing gesture, from `src/core/src/gesture.rs`
(`enum Phase`, deriving `PartialEq, Eq`). -/
inductive Phase
  | Started
  | Changed
  | Ended
  | Cancelled
deriving DecidableEq

/-- A 2D point, the external `crate::Point` payload of `Pan` (two `f32`
coordinates). -/
structure Point where
  x : Float
  y : Float

/-- A trackpad/touchscreen gesture, from `src/core/src/gesture.rs`
(`enum Event`): a closed tagged union of four variants. -/
inductive Event
  | Pinch (phase : Phase) (delta : Float)
  | Pan (phase : Phase) (delta : Point)
  | Rotation (phase : Phase) (delta : Float)
  | DoubleTap

/-- Equality of `Point` payloads, following Rust derived `PartialEq` on the
point type: componentwise `f32` equality. -/
def pointBEq (a b : Point) : Bool :=
  a.x == b.x && a.y == b.y

/-- Equality of events, following Rust `#[derive(PartialEq)]` on `Event`:
two values of different variants compare unequal; two values of the same
variant compare their payloads fieldwise. -/
def eventBEq : Event → Event → Bool
  | Event.Pinch p d, Event.Pinch q e => p == q && d == e
  | Event.Pan p d, Event.Pan q e => p == q && pointBEq d e
  | Event.Rotation p d, Event.Rotation q e => p == q && d == e
  | Event.DoubleTap, Event.DoubleTap => true
  | _, _ => false

/-- Whether two events belong to the same variant of the union. -/
def sameVariant : Event → Event → Bool
  | Event.Pinch _ _, Event.Pinch _ _ => true
  | Event.Pan _ _, Event.Pan _ _ => true
  | Event.Rotation _ _, Event.Rotation _ _ => true
  | Event.DoubleTap, Event.DoubleTap => true
  | _, _ => false

/-- The payload of a `Pinch` event, when the event is one. -/
def pinchFields : Event → Option (Phase × Float)
  | Event.Pinch p d => some (p, d)
  | _ => none

/-- The payload of a `Pan` event, when the event is one. -/
def panFields : Event → Option (Phase × Point)
  | Event.Pan p d => some (p, d)
  | _ => none

/-- The payload of a `Rotation` event, when the event is one. -/
def rotationFields : Event → Option (Phase × Float)
  | Event.Rotation p d => some (p, d)
  | _ => none

/-- Modelled from the spec: the per-kind validity state machine's states
`{Idle, Started, Changed}`.  The source defines only the data types; the
spec's §4.1 "Validity algorithm" describes the machine to be implemented. -/
inductive VState
  | Idle
  | Started
  | Changed
deriving DecidableEq

/-- Modelled from the spec: the transition function of the validity state
machine.  Exactly the transitions of spec §4.1 are defined; any other
pairing is a protocol violation (`none`). -/
def step : VState → Phase → Option VState
  | VState.Idle, Phase.Started => some VState.Started
  | VState.Started, Phase.Changed => some VState.Changed
  | VState.Started, Phase.Ended => some VState.Idle
  | VState.Started, Phase.Cancelled => some VState.Idle
  | VState.Changed, Phase.Changed => some VState.Changed
  | VState.Changed, Phase.Ended => some VState.Idle
  | VState.Changed, Phase.Cancelled => some VState.Idle
  | _, _ => none

/-- Run the validity machine over a sequence of phases; `none` as soon as a
transition is a protocol violation. -/
def run : VState → List Phase → Option VState
  | s, [] => some s
  | s, p :: ps =>
    match step s p with
    | some t => run t ps
    | none => none

/-- Whether an episode of the driven gesture kind is open in a machine
state. -/
def isOpen : VState → Bool
  | VState.Idle => false
  | VState.Started => true
  | VState.Changed => true

/-- Matcher for the part of the episode grammar after `Started`:
`Changed*` followed by exactly one terminal (`Ended` or `Cancelled`). -/
def tailEpisode : List Phase → Bool
  | [] => false
  | Phase.Started :: _ => false
  | Phase.Changed :: rest => tailEpisode rest
  | Phase.Ended :: rest => rest.isEmpty
  | Phase.Cancelled :: rest => rest.isEmpty

/-- Matcher for the spec's episode grammar
`[Started, Changed*, (Ended|Cancelled)]`. -/
def isEpisode : List Phase → Bool
  | Phase.Started :: rest => tailEpisode rest
  | _ => false

/-- Modelled from the spec: the combined protocol state, one validity
machine per phased gesture kind, each tracking its phase independently. -/
structure GState where
  pinch : VState
  pan : VState
  rotation : VState
deriving DecidableEq

/-- The combined protocol's initial state: every kind idle. -/
def initState : GState :=
  ⟨VState.Idle, VState.Idle, VState.Idle⟩

/-- Modelled from the spec: step the combined protocol by one event.  An
event of a phased kind steps that kind's machine only; `DoubleTap` is a
phase-less atomic notification and leaves every machine unchanged. -/
def gstep : GState → Event → Option GState
  | s, Event.Pinch p _ => (step s.pinch p).map fun v => ⟨v, s.pan, s.rotation⟩
  | s, Event.Pan p _ => (step s.pan p).map fun v => ⟨s.pinch, v, s.rotation⟩
  | s, Event.Rotation p _ => (step s.rotation p).map fun v => ⟨s.pinch, s.pan, v⟩
  | s, Event.DoubleTap => some s

/-- Run the combined protocol over a sequence of events. -/
def grun : GState → List Event → Option GState
  | s, [] => some s
  | s, e :: es =>
    match gstep s e with
    | some t => grun t es
    | none => none

theorem run_append (xs ys : List Phase) (s : VState) :
    run s (xs ++ ys) = (run s xs).bind fun t => run t ys := by
  induction xs generalizing s with
  | nil => simp [run]
  | cons p xs ih =>
    cases h : step s p with
    | none => simp [run, h]
    | some t => simp [run, h, ih]

theorem step_from_idle (p : Phase) (t : VState) (h : step VState.Idle p = some t) :
    p = Phase.Started ∧ t = VState.Started := by
  cases p <;> simp_all [step]

theorem step_to_started (s : VState) (t : VState) (h : step s Phase.Started = some t) :
    s = VState.Idle ∧ t = VState.Started := by
  cases s <;> simp_all [step]

theorem step_terminal (s : VState) (p : Phase) (t : VState)
    (h : step s p = some t) (hp : p = Phase.Ended ∨ p = Phase.Cancelled) :
    t = VState.Idle := by
  cases hp <;> subst_vars <;> cases s <;> simp_all [step]

theorem step_started_of_open (s : VState) (h : isOpen s = true) :
    step s Phase.Started = none := by
  cases s <;> simp_all [isOpen, step]

theorem tailEpisode_run (rest : List Phase) (h : tailEpisode rest = true) :
    run VState.Started rest = some VState.Idle ∧
    run VState.Changed rest = some VState.Idle ∧
    rest.count Phase.Started = 0 ∧
    rest.count Phase.Ended + rest.count Phase.Cancelled = 1 := by
  induction rest with
  | nil => simp [tailEpisode] at h
  | cons p rest ih =>
    cases p with
    | Started => simp [tailEpisode] at h
    | Changed =>
      obtain ⟨h1, h2, h3, h4⟩ := ih (by simpa [tailEpisode] using h)
      refine ⟨?_, ?_, ?_, ?_⟩ <;>
        simp [run, step, List.count_cons, h1, h2, h3, h4]
    | Ended =>
      have hrest : rest = [] := by
        cases rest with
        | nil => rfl
        | cons q t => simp [tailEpisode, List.isEmpty] at h
      subst hrest
      refine ⟨rfl, rfl, ?_, ?_⟩ <;> simp [List.count_cons, List.count_nil]
    | Cancelled =>
      have hrest : rest = [] := by
        cases rest with
        | nil => rfl
        | cons q t => simp [tailEpisode, List.isEmpty] at h
      subst hrest
      refine ⟨rfl, rfl, ?_, ?_⟩ <;> simp [List.count_cons, List.count_nil]

theorem run_idle_no_started (ps : List Phase)
    (h : (run VState.Idle ps).isSome = true) (hc : ps.count Phase.Started = 0) :
    ps = [] := by
  cases ps with
  | nil => rfl
  | cons p t =>
    cases p <;> simp_all [run, step, List.count_cons]

theorem tailEpisode_of_run (rest : List Phase) :
    ∀ s : VState, (s = VState.Started ∨ s = VState.Changed) →
      run s rest = some VState.Idle → rest.count Phase.Started = 0 →
      tailEpisode rest = true := by
  induction rest with
  | nil =>
    intro s hs h _
    cases hs <;> subst_vars <;> simp [run] at h
  | cons p rest ih =>
    intro s hs h hc
    cases p with
    | Started => simp [List.count_cons] at hc
    | Changed =>
      have hstep : step s Phase.Changed = some VState.Changed := by
        cases hs <;> subst_vars <;> rfl
      have hrun : run VState.Changed rest = some VState.Idle := by
        simpa [run, hstep] using h
      have hc2 : rest.count Phase.Started = 0 := by
        simpa [List.count_cons] using hc
      simpa [tailEpisode] using ih VState.Changed (Or.inr rfl) hrun hc2
    | Ended =>
      have hstep : step s Phase.Ended = some VState.Idle := by
        cases hs <;> subst_vars <;> rfl
      have hrun : run VState.Idle rest = some VState.Idle := by
        simpa [run, hstep] using h
      have hc2 : rest.count Phase.Started = 0 := by
        simpa [List.count_cons] using hc
      have : rest = [] := run_idle_no_started rest (by simp [hrun]) hc2
      subst this
      rfl
    | Cancelled =>
      have hstep : step s Phase.Cancelled = some VState.Idle := by
        cases hs <;> subst_vars <;> rfl
      have hrun : run VState.Idle rest = some VState.Idle := by
        simpa [run, hstep] using h
      have hc2 : rest.count Phase.Started = 0 := by
        simpa [List.count_cons] using hc
      have : rest = [] := run_idle_no_started rest (by simp [hrun]) hc2
      subst this
      rfl

theorem open_run_to_idle_has_terminal (mid : List Phase) :
    ∀ s : VState, isOpen s = true → run s mid = some VState.Idle →
      ∃ p, p ∈ mid ∧ (p = Phase.Ended ∨ p = Phase.Cancelled) := by
  induction mid with
  | nil =>
    intro s hs h
    cases s <;> simp_all [isOpen, run]
  | cons p rest ih =>
    intro s hs h
    cases p with
    | Started =>
      rw [show run s (Phase.Started :: rest) =
            match step s Phase.Started with
            | some t => run t rest
            | none => none from rfl, step_started_of_open s hs] at h
      simp at h
    | Changed =>
      have hstep : step s Phase.Changed = some VState.Changed := by
        cases s <;> simp_all [isOpen, step]
      have hrun : run VState.Changed rest = some VState.Idle := by
        simpa [run, hstep] using h
      obtain ⟨q, hq, hterm⟩ := ih VState.Changed rfl hrun
      exact ⟨q, List.mem_cons_of_mem _ hq, hterm⟩
    | Ended => exact ⟨Phase.Ended, List.mem_cons_self _ _, Or.inl rfl⟩
    | Cancelled => exact ⟨Phase.Cancelled, List.mem_cons_self _ _, Or.inr rfl⟩

/-- C1 (counterexample): the sequence `[Started]` follows the machine's
transitions from `Idle` (it is never rejected) yet violates the grammar
`[Started, Changed*, (Ended|Cancelled)]`, so "every sequence violating this
grammar is rejected" fails as stated. -/
theorem started_alone_accepted_not_episode :
    (run VState.Idle [Phase.Started]).isSome = true ∧
    isEpisode [Phase.Started] = false := by
  exact ⟨rfl, rfl⟩

/-- C1 (amended): a phase sequence matches the grammar
`[Started, Changed*, (Ended|Cancelled)]` exactly when, starting from `Idle`,
it follows the machine's transitions with the machine ending back in `Idle`
and contains exactly one `Started`; merely following the transitions does
not imply matching the grammar, since a valid proper initial segment such as
`[Started]` is not rejected. -/
theorem episode_iff_complete_run (ps : List Phase) :
    isEpisode ps = true ↔
      (run VState.Idle ps = some VState.Idle ∧ ps.count Phase.Started = 1) := by
  constructor
  · intro h
    cases ps with
    | nil => simp [isEpisode] at h
    | cons p rest =>
      cases p with
      | Started =>
        obtain ⟨h1, _, h3, _⟩ := tailEpisode_run rest (by simpa [isEpisode] using h)
        refine ⟨?_, ?_⟩
        · simpa [run, step] using h1
        · simp [List.count_cons, h3]
      | Changed => simp [isEpisode] at h
      | Ended => simp [isEpisode] at h
      | Cancelled => simp [isEpisode] at h
  · intro h
    obtain ⟨hrun, hcount⟩ := h
    cases ps with
    | nil => simp [List.count_nil] at hcount
    | cons p rest =>
      cases p with
      | Started =>
        have hrun2 : run VState.Started rest = some VState.Idle := by
          simpa [run, step] using hrun
        have hc : rest.count Phase.Started = 0 := by
          simpa [List.count_cons] using hcount
        simpa [isEpisode] using
          tailEpisode_of_run rest VState.Started (Or.inl rfl) hrun2 hc
      | Changed => simp [run, step] at hrun
      | Ended => simp [run, step] at hrun
      | Cancelled => simp [run, step] at hrun

/-- C3: in the combined protocol (one machine per kind, stepped only by
events of its kind), episodes of different kinds may be open simultaneously
— after `Rotation{Started}` then `Pinch{Started}` from the initial state
both machines are open — but a `Started` event for a kind whose machine is
already `Started` or `Changed` is a protocol violation. -/
theorem concurrent_kinds_single_episode :
    (∃ s : GState,
      grun initState
        [Event.Rotation Phase.Started 0.0, Event.Pinch Phase.Started 0.0] =
          some s ∧
        isOpen s.rotation = true ∧ isOpen s.pinch = true) ∧
    (∀ (s : GState) (d : Float),
      isOpen s.pinch = true → gstep s (Event.Pinch Phase.Started d) = none) ∧
    (∀ (s : GState) (d : Point),
      isOpen s.pan = true → gstep s (Event.Pan Phase.Started d) = none) ∧
    (∀ (s : GState) (d : Float),
      isOpen s.rotation = true → gstep s (Event.Rotation Phase.Started d) = none) := by
  refine ⟨⟨⟨VState.Started, VState.Idle, VState.Started⟩, rfl, rfl, rfl⟩, ?_, ?_, ?_⟩
  · intro s d h
    obtain ⟨sp, sa, sr⟩ := s
    cases sp <;> simp_all [isOpen, gstep, step]
  · intro s d h
    obtain ⟨sp, sa, sr⟩ := s
    cases sa <;> simp_all [isOpen, gstep, step]
  · intro s d h
    obtain ⟨sp, sa, sr⟩ := s
    cases sr <;> simp_all [isOpen, gstep, step]

/-- C3 (witness): concrete open states reject a second `Started` of the
same kind. -/
theorem concurrent_kinds_single_episode_concrete :
    gstep ⟨VState.Started, VState.Idle, VState.Idle⟩
        (Event.Pinch Phase.Started 0.0) = none ∧
    gstep ⟨VState.Idle, VState.Changed, VState.Idle⟩
        (Event.Pan Phase.Started ⟨0.0, 0.0⟩) = none ∧
    gstep ⟨VState.Idle, VState.Idle, VState.Started⟩
        (Event.Rotation Phase.Started 0.0) = none :=
  ⟨concurrent_kinds_single_episode.2.1 ⟨VState.Started, VState.Idle, VState.Idle⟩ 0.0 rfl,
   concurrent_kinds_single_episode.2.2.1 ⟨VState.Idle, VState.Changed, VState.Idle⟩ ⟨0.0, 0.0⟩ rfl,
   concurrent_kinds_single_episode.2.2.2 ⟨VState.Idle, VState.Idle, VState.Started⟩ 0.0 rfl⟩

/-- C4: in every sequence the machine accepts, an event immediately after a
terminal event (`Ended` or `Cancelled`) can only be `Started` — nothing of
the kind follows the terminal until a new episode begins — and a sequence
matching the episode grammar contains exactly one terminal event, so
`Ended` and `Cancelled` are mutually exclusive as the terminal of one
episode. -/
theorem terminal_then_started :
    (∀ (pre suf : List Phase) (p q : Phase),
      (run VState.Idle (pre ++ p :: q :: suf)).isSome = true →
      (p = Phase.Ended ∨ p = Phase.Cancelled) → q = Phase.Started) ∧
    (∀ ps : List Phase, isEpisode ps = true →
      ps.count Phase.Ended + ps.count Phase.Cancelled = 1) := by
  constructor
  · intro pre suf p q h hp
    rw [run_append] at h
    cases hpre : run VState.Idle pre with
    | none => simp [hpre] at h
    | some s =>
      rw [hpre] at h
      simp only [Option.some_bind] at h
      cases hstep : step s p with
      | none => simp [run, hstep] at h
      | some t =>
        have ht : t = VState.Idle := step_terminal s p t hstep hp
        subst ht
        rw [show run s (p :: q :: suf) =
              match step s p with
              | some u => run u (q :: suf)
              | none => none from rfl, hstep] at h
        cases hq : step VState.Idle q with
        | none => simp [run, hq] at h
        | some u => exact (step_from_idle q u hq).1
  · intro ps h
    cases ps with
    | nil => simp [isEpisode] at h
    | cons p rest =>
      cases p with
      | Started =>
        obtain ⟨_, _, _, h4⟩ := tailEpisode_run rest (by simpa [isEpisode] using h)
        simpa [List.count_cons] using h4
      | Changed => simp [isEpisode] at h
      | Ended => simp [isEpisode] at h
      | Cancelled => simp [isEpisode] at h

/-- C4 (witness): both parts applied at the accepted sequence
`[Started, Ended, Started, Ended]` and the episode `[Started, Ended]`. -/
theorem terminal_then_started_concrete :
    Phase.Started = Phase.Started ∧
    ([Phase.Started, Phase.Ended] : List Phase).count Phase.Ended +
      ([Phase.Started, Phase.Ended] : List Phase).count Phase.Cancelled = 1 :=
  ⟨terminal_then_started.1 [Phase.Started] [Phase.Ended] Phase.Ended Phase.Started
      rfl (Or.inl rfl),
   terminal_then_started.2 [Phase.Started, Phase.Ended] rfl⟩

/-- C5: in every sequence the machine accepts, two `Started` events of the
same kind are always separated by a terminal phase: whatever lies between
them contains an `Ended` or a `Cancelled`.  In particular `Started` is
never immediately followed by another `Started`. -/
theorem no_double_started (pre mid suf : List Phase)
    (h : (run VState.Idle
        (pre ++ Phase.Started :: (mid ++ Phase.Started :: suf))).isSome = true) :
    ∃ p, p ∈ mid ∧ (p = Phase.Ended ∨ p = Phase.Cancelled) := by
  rw [run_append] at h
  cases hpre : run VState.Idle pre with
  | none => simp [hpre] at h
  | some s =>
    rw [hpre] at h
    simp only [Option.some_bind] at h
    cases hstep : step s Phase.Started with
    | none => simp [run, hstep] at h
    | some t =>
      have ht : t = VState.Started := (step_to_started s t hstep).2
      subst ht
      have h2 : (run VState.Started (mid ++ Phase.Started :: suf)).isSome = true := by
        rw [show run s (Phase.Started :: (mid ++ Phase.Started :: suf)) =
              match step s Phase.Started with
              | some u => run u (mid ++ Phase.Started :: suf)
              | none => none from rfl, hstep] at h
        exact h
      rw [run_append] at h2
      cases hmid : run VState.Started mid with
      | none => simp [hmid] at h2
      | some s2 =>
        rw [hmid] at h2
        simp only [Option.some_bind] at h2
        cases hq : step s2 Phase.Started with
        | none => simp [run, hq] at h2
        | some u =>
          have hs2 : s2 = VState.Idle := (step_to_started s2 u hq).1
          subst hs2
          exact open_run_to_idle_has_terminal mid VState.Started rfl hmid

/-- C5 (witness): between the two `Started`s of the accepted sequence
`[Started, Ended, Started, Ended]` lies the terminal `Ended`. -/
theorem no_double_started_concrete :
    ∃ p, p ∈ ([Phase.Ended] : List Phase) ∧
      (p = Phase.Ended ∨ p = Phase.Cancelled) :=
  no_double_started [] [Phase.Ended] [Phase.Ended] rfl

/-- C6: the event type is a closed tagged union of exactly the four variants
`Pinch` (phase, scalar delta), `Pan` (phase, 2D offset), `Rotation` (phase,
scalar delta) and `DoubleTap` (no payload); `Phase` is a closed enum of
exactly the four pairwise distinct values `Started`, `Changed`, `Cancelled`,
`Ended`; and values of different variants are never equal. -/
theorem event_closed_union :
    (∀ e : Event,
      (∃ ph d, e = Event.Pinch ph d) ∨ (∃ ph d, e = Event.Pan ph d) ∨
      (∃ ph d, e = Event.Rotation ph d) ∨ e = Event.DoubleTap) ∧
    (∀ ph : Phase,
      ph = Phase.Started ∨ ph = Phase.Changed ∨ ph = Phase.Cancelled ∨
      ph = Phase.Ended) ∧
    (Phase.Started ≠ Phase.Changed ∧ Phase.Started ≠ Phase.Cancelled ∧
      Phase.Started ≠ Phase.Ended ∧ Phase.Changed ≠ Phase.Cancelled ∧
      Phase.Changed ≠ Phase.Ended ∧ Phase.Cancelled ≠ Phase.Ended) ∧
    (∀ (ph ph2 : Phase) (d e : Float) (v : Point),
      Event.Pinch ph d ≠ Event.Pan ph2 v ∧
      Event.Pinch ph d ≠ Event.Rotation ph2 e ∧
      Event.Pan ph v ≠ Event.Rotation ph2 e ∧
      Event.Pinch ph d ≠ Event.DoubleTap ∧
      Event.Pan ph v ≠ Event.DoubleTap ∧
      Event.Rotation ph d ≠ Event.DoubleTap) := by
  refine ⟨?_, ?_, ?_, ?_⟩
  · intro e
    cases e with
    | Pinch ph d => exact Or.inl ⟨ph, d, rfl⟩
    | Pan ph d => exact Or.inr (Or.inl ⟨ph, d, rfl⟩)
    | Rotation ph d => exact Or.inr (Or.inr (Or.inl ⟨ph, d, rfl⟩))
    | DoubleTap => exact Or.inr (Or.inr (Or.inr rfl))
  · intro ph
    cases ph
    · exact Or.inl rfl
    · exact Or.inr (Or.inl rfl)
    · exact Or.inr (Or.inr (Or.inr rfl))
    · exact Or.inr (Or.inr (Or.inl rfl))
  · refine ⟨?_, ?_, ?_, ?_, ?_, ?_⟩ <;> intro h <;> exact Phase.noConfusion h
  · intro ph ph2 d e v
    refine ⟨?_, ?_, ?_, ?_, ?_, ?_⟩ <;> intro h <;> exact Event.noConfusion h

/-- C7: under the derived equality, a `DoubleTap` never equals a `Pinch`,
`Pan` or `Rotation` value (whatever their phase and delta), and equality
holds only between values of the same variant. -/
theorem doubleTap_never_equals_phased :
    (∀ (ph : Phase) (d : Float),
      eventBEq Event.DoubleTap (Event.Pinch ph d) = false ∧
      eventBEq (Event.Pinch ph d) Event.DoubleTap = false) ∧
    (∀ (ph : Phase) (v : Point),
      eventBEq Event.DoubleTap (Event.Pan ph v) = false ∧
      eventBEq (Event.Pan ph v) Event.DoubleTap = false) ∧
    (∀ (ph : Phase) (d : Float),
      eventBEq Event.DoubleTap (Event.Rotation ph d) = false ∧
      eventBEq (Event.Rotation ph d) Event.DoubleTap = false) ∧
    (∀ a b : Event, eventBEq a b = true → sameVariant a b = true) := by
  refine ⟨fun ph d => ⟨rfl, rfl⟩, fun ph v => ⟨rfl, rfl⟩, fun ph d => ⟨rfl, rfl⟩, ?_⟩
  intro a b h
  cases a <;> cases b <;> first
    | rfl
    | exact absurd h (by simp [eventBEq])

/-- C7 (witness): the same-variant consequence of derived equality at a
concrete pair. -/
theorem doubleTap_never_equals_phased_concrete :
    sameVariant Event.DoubleTap Event.DoubleTap = true :=
  doubleTap_never_equals_phased.2.2.2 Event.DoubleTap Event.DoubleTap rfl

/-- C8: construction of every variant is total for every phase and every
(unbounded) delta — the constructors are plain total functions with no
error branch — and the constructed value carries exactly the given payload:
destructing recovers it, and two constructed values of one variant are
equal exactly when their payloads are. -/
theorem construction_total (ph ph2 : Phase) (d e : Float) (v w : Point) :
    pinchFields (Event.Pinch ph d) = some (ph, d) ∧
    panFields (Event.Pan ph v) = some (ph, v) ∧
    rotationFields (Event.Rotation ph d) = some (ph, d) ∧
    (Event.Pinch ph d = Event.Pinch ph2 e ↔ ph = ph2 ∧ d = e) ∧
    (Event.Pan ph v = Event.Pan ph2 w ↔ ph = ph2 ∧ v = w) ∧
    (Event.Rotation ph d = Event.Rotation ph2 e ↔ ph = ph2 ∧ d = e) := by
  refine ⟨rfl, rfl, rfl, ?_, ?_, ?_⟩ <;> simp

end Gesture

namespace Wgpu

/-- The external `wgpu::TextureFormat` enum, modelled with the constructors
`src/wgpu/src/settings.rs` can produce. -/
inductive TextureFormat
  | Rgba16Float
  | Bgra8UnormSrgb
  | Bgra8Unorm
  | Rgba8UnormSrgb
  | Rgba8Unorm
deriving DecidableEq

/-- The external `wgpu::PresentMode` enum, modelled with the constructors
`src/wgpu/src/settings.rs` can produce. -/
inductive PresentMode
  | AutoVsync
  | AutoNoVsync
  | Immediate
  | Fifo
  | FifoRelaxed
  | Mailbox
deriving DecidableEq

/-- The external `wgpu::Backends` bitflags, modelled as its bits; `all()`
sets the five backend bits. -/
structure Backends where
  bits : Nat
deriving DecidableEq

/-- `wgpu::Backends::all()`. -/
def Backends.all : Backends := ⟨31⟩

/-- The external `iced_core::Font`, used only as an opaque value type with a
default; modelled by an identifier. -/
structure Font where
  id : Nat
deriving DecidableEq

/-- `Font::default()`. -/
def Font.default : Font := ⟨0⟩

/-- The external `iced_core::Pixels` newtype over `f32`. -/
structure Pixels where
  value : Float

/-- The external `iced_graphics::Antialiasing` strategy enum. -/
inductive Antialiasing
  | MSAAx2
  | MSAAx4
  | MSAAx8
  | MSAAx16
deriving DecidableEq

/-- The renderer `Settings` struct of `src/wgpu/src/settings.rs`. -/
structure Settings where
  present_mode : PresentMode
  format : Option TextureFormat
  backends : Backends
  default_font : Font
  default_text_size : Pixels
  antialiasing : Option Antialiasing

/-- `impl Default for Settings` of `src/wgpu/src/settings.rs`: AutoVsync,
no fixed format, all backends, default font, 16-pixel text, no
antialiasing. -/
def Settings.default : Settings :=
  ⟨PresentMode.AutoVsync, none, Backends.all, Font.default, ⟨16.0⟩, none⟩

/-- Modelled from the spec: the `iced_graphics::Settings` struct is not
under `src/`; its fields here are exactly the ones the
`From<graphics::Settings>` impl in `src/wgpu/src/settings.rs` reads
(`default_font`, `default_text_size`, `antialiasing`, `vsync`). -/
structure GraphicsSettings where
  default_font : Font
  default_text_size : Pixels
  antialiasing : Option Antialiasing
  vsync : Bool

/-- `impl From<graphics::Settings> for Settings` of
`src/wgpu/src/settings.rs`: present mode from the vsync flag, the three
value fields copied, the rest from `Settings::default()`. -/
def settingsFrom (g : GraphicsSettings) : Settings :=
  ⟨if g.vsync then PresentMode.AutoVsync else PresentMode.AutoNoVsync,
   Settings.default.format, Settings.default.backends,
   g.default_font, g.default_text_size, g.antialiasing⟩

/-- Rust `str::to_lowercase` as the source applies it: per-character
lowercasing (the recognized tokens are ASCII). -/
def toLowercase (s : String) : String := ⟨s.data.map Char.toLower⟩

/-- The token table of `format_from_env`, applied to the lowercased value:
the sequential literal comparisons of the Rust `match`. -/
def formatLookup (s : String) : Option TextureFormat :=
  if s = "rgba16float" then some TextureFormat.Rgba16Float
  else if s = "bgra8unormsrgb" then some TextureFormat.Bgra8UnormSrgb
  else if s = "bgra8unorm" then some TextureFormat.Bgra8Unorm
  else if s = "rgba8unormsrgb" then some TextureFormat.Rgba8UnormSrgb
  else if s = "rgba8unorm" then some TextureFormat.Rgba8Unorm
  else none

/-- The token table of `present_mode_from_env`, applied to the lowercased
value. -/
def presentModeLookup (s : String) : Option PresentMode :=
  if s = "vsync" then some PresentMode.AutoVsync
  else if s = "no_vsync" then some PresentMode.AutoNoVsync
  else if s = "immediate" then some PresentMode.Immediate
  else if s = "fifo" then some PresentMode.Fifo
  else if s = "fifo_relaxed" then some PresentMode.FifoRelaxed
  else if s = "mailbox" then some PresentMode.Mailbox
  else none

/-- `format_from_env` of `src/wgpu/src/settings.rs`; the process
environment is passed explicitly as a partial map from variable names to
values (`std::env::var(..).ok()`). -/
def format_from_env (env : String → Option String) : Option TextureFormat :=
  match env "ICED_FORMAT" with
  | none => none
  | some format => formatLookup (toLowercase format)

/-- `present_mode_from_env` of `src/wgpu/src/settings.rs`. -/
def present_mode_from_env (env : String → Option String) : Option PresentMode :=
  match env "ICED_PRESENT_MODE" with
  | none => none
  | some present_mode => presentModeLookup (toLowercase present_mode)

/-- The five format tokens. -/
def formatTokens : List String :=
  ["rgba16float", "bgra8unormsrgb", "bgra8unorm", "rgba8unormsrgb", "rgba8unorm"]

/-- The six present-mode tokens. -/
def presentModeTokens : List String :=
  ["vsync", "no_vsync", "immediate", "fifo", "fifo_relaxed", "mailbox"]

theorem formatLookup_none (v : String) (h : v ∉ formatTokens) :
    formatLookup v = none := by
  simp only [formatTokens, List.mem_cons, List.not_mem_nil, or_false, not_or] at h
  obtain ⟨n1, n2, n3, n4, n5⟩ := h
  simp [formatLookup, n1, n2, n3, n4, n5]

theorem presentModeLookup_none (v : String) (h : v ∉ presentModeTokens) :
    presentModeLookup v = none := by
  simp only [presentModeTokens, List.mem_cons, List.not_mem_nil, or_false,
    not_or] at h
  obtain ⟨n1, n2, n3, n4, n5, n6⟩ := h
  simp [presentModeLookup, n1, n2, n3, n4, n5, n6]

theorem formatLookup_isSome (v : String) :
    (formatLookup v).isSome = true ↔ v ∈ formatTokens := by
  constructor
  · intro h
    by_contra hn
    rw [formatLookup_none v hn] at h
    simp at h
  · intro h
    simp only [formatTokens, List.mem_cons, List.not_mem_nil, or_false] at h
    rcases h with h | h | h | h | h <;> subst h <;> decide

theorem presentModeLookup_isSome (v : String) :
    (presentModeLookup v).isSome = true ↔ v ∈ presentModeTokens := by
  constructor
  · intro h
    by_contra hn
    rw [presentModeLookup_none v hn] at h
    simp at h
  · intro h
    simp only [presentModeTokens, List.mem_cons, List.not_mem_nil, or_false] at h
    rcases h with h | h | h | h | h | h <;> subst h <;> decide

/-- C2: for every environment, `format_from_env` returns `some` of the
corresponding format exactly when `ICED_FORMAT` is set to one of the five
tokens compared case-insensitively (by lowercasing the value), and
`present_mode_from_env` returns `some` of the corresponding mode exactly
when `ICED_PRESENT_MODE` is set to one of the six tokens; each returns
`none` when its variable is absent or its value unrecognized. -/
theorem env_lookup_spec (env : String → Option String) :
    (env "ICED_FORMAT" = none → format_from_env env = none) ∧
    (∀ s, env "ICED_FORMAT" = some s →
      ((format_from_env env).isSome = true ↔ toLowercase s ∈ formatTokens) ∧
      (toLowercase s = "rgba16float" →
        format_from_env env = some TextureFormat.Rgba16Float) ∧
      (toLowercase s = "bgra8unormsrgb" →
        format_from_env env = some TextureFormat.Bgra8UnormSrgb) ∧
      (toLowercase s = "bgra8unorm" →
        format_from_env env = some TextureFormat.Bgra8Unorm) ∧
      (toLowercase s = "rgba8unormsrgb" →
        format_from_env env = some TextureFormat.Rgba8UnormSrgb) ∧
      (toLowercase s = "rgba8unorm" →
        format_from_env env = some TextureFormat.Rgba8Unorm) ∧
      (toLowercase s ∉ formatTokens → format_from_env env = none)) ∧
    (env "ICED_PRESENT_MODE" = none → present_mode_from_env env = none) ∧
    (∀ s, env "ICED_PRESENT_MODE" = some s →
      ((present_mode_from_env env).isSome = true ↔
        toLowercase s ∈ presentModeTokens) ∧
      (toLowercase s = "vsync" →
        present_mode_from_env env = some PresentMode.AutoVsync) ∧
      (toLowercase s = "no_vsync" →
        present_mode_from_env env = some PresentMode.AutoNoVsync) ∧
      (toLowercase s = "immediate" →
        present_mode_from_env env = some PresentMode.Immediate) ∧
      (toLowercase s = "fifo" →
        present_mode_from_env env = some PresentMode.Fifo) ∧
      (toLowercase s = "fifo_relaxed" →
        present_mode_from_env env = some PresentMode.FifoRelaxed) ∧
      (toLowercase s = "mailbox" →
        present_mode_from_env env = some PresentMode.Mailbox) ∧
      (toLowercase s ∉ presentModeTokens →
        present_mode_from_env env = none)) := by
  refine ⟨?_, ?_, ?_, ?_⟩
  · intro h
    simp [format_from_env, h]
  · intro s hs
    have hF : format_from_env env = formatLookup (toLowercase s) := by
      simp [format_from_env, hs]
    rw [hF]
    refine ⟨formatLookup_isSome _, ?_, ?_, ?_, ?_, ?_, ?_⟩ <;> intro ht
    · rw [ht]; decide
    · rw [ht]; decide
    · rw [ht]; decide
    · rw [ht]; decide
    · rw [ht]; decide
    · exact formatLookup_none _ ht
  · intro h
    simp [present_mode_from_env, h]
  · intro s hs
    have hP : present_mode_from_env env = presentModeLookup (toLowercase s) := by
      simp [present_mode_from_env, hs]
    rw [hP]
    refine ⟨presentModeLookup_isSome _, ?_, ?_, ?_, ?_, ?_, ?_, ?_⟩ <;> intro ht
    · rw [ht]; decide
    · rw [ht]; decide
    · rw [ht]; decide
    · rw [ht]; decide
    · rw [ht]; decide
    · rw [ht]; decide
    · exact presentModeLookup_none _ ht

/-- A sample process environment setting both variables, with mixed case. -/
def envSample : String → Option String :=
  fun k =>
    if k = "ICED_FORMAT" then some "RGBA16Float"
    else if k = "ICED_PRESENT_MODE" then some "Mailbox"
    else none

/-- C2 (witness): the lookups at a concrete environment with mixed-case
values. -/
theorem env_lookup_spec_concrete :
    format_from_env envSample = some TextureFormat.Rgba16Float ∧
    present_mode_from_env envSample = some PresentMode.Mailbox :=
  ⟨((env_lookup_spec envSample).2.1 "RGBA16Float" (by decide)).2.1 (by decide),
   ((env_lookup_spec envSample).2.2.2 "Mailbox"
      (by decide)).2.2.2.2.2.2.1 (by decide)⟩

/-- C9: `Settings::default()` returns exactly AutoVsync, no fixed format,
all backends, the default font, 16-pixel text and no antialiasing. -/
theorem settings_default_values :
    Settings.default.present_mode = PresentMode.AutoVsync ∧
    Settings.default.format = none ∧
    Settings.default.backends = Backends.all ∧
    Settings.default.default_font = Font.default ∧
    Settings.default.default_text_size = Pixels.mk 16.0 ∧
    Settings.default.antialiasing = none :=
  ⟨rfl, rfl, rfl, rfl, rfl, rfl⟩

/-- C10: the conversion from `graphics::Settings` chooses AutoVsync exactly
when the input's vsync flag is set (AutoNoVsync otherwise), copies the
font, text size and antialiasing unchanged, and takes format and backends
from `Settings::default()` regardless of the input. -/
theorem from_graphics_settings_fields (g : GraphicsSettings) :
    ((settingsFrom g).present_mode = PresentMode.AutoVsync ↔ g.vsync = true) ∧
    ((settingsFrom g).present_mode = PresentMode.AutoNoVsync ↔ g.vsync = false) ∧
    (settingsFrom g).default_font = g.default_font ∧
    (settingsFrom g).default_text_size = g.default_text_size ∧
    (settingsFrom g).antialiasing = g.antialiasing ∧
    (settingsFrom g).format = Settings.default.format ∧
    (settingsFrom g).backends = Settings.default.backends := by
  obtain ⟨f, ts, aa, v⟩ := g
  cases v <;> simp [settingsFrom]

/-- C10 (witness): the conversion at a concrete input without vsync. -/
theorem from_graphics_settings_concrete :
    (settingsFrom ⟨Font.default, ⟨16.0⟩, none, false⟩).present_mode =
      PresentMode.AutoNoVsync :=
  (from_graphics_settings_fields ⟨Font.default, ⟨16.0⟩, none, false⟩).2.1.mpr rfl

end Wgpu
